import Mathlib

/-!
Verification of the Finora transaction aggregator
(`backend/analytics/service.py`) against its specification.

Modelling conventions:
* Python `float` amounts are embedded as exact rationals (`ℚ`); the spec's
  arithmetic claims are about the ideal real-number semantics of the code.
* Python `datetime` values are embedded as a record of calendar fields with
  second precision, interpreted in UTC (`created_at` is produced from
  `dt.now(tz.utc)` and query datetimes are compared through `timestamp()`).
* Python exceptions are embedded with `Except String`; an `AttributeError`
  raised by accessing a missing enum member is an `Except.error`.
* Python `dict` (insertion ordered) grouping is embedded as association
  lists updated in encounter order; `list.sort` (stable) is embedded as a
  stable insertion sort.
-/

/-! ### Calendar / datetime model (`datetime.datetime`, second precision, UTC) -/

/-- A Python `datetime.datetime` value at second precision (the code never
reads microseconds on the paths modelled here). -/
structure Datetime where
  year : Nat
  month : Nat
  day : Nat
  hour : Nat
  minute : Nat
  second : Nat
deriving DecidableEq, Repr

/-- Days since 1970-01-01 of a civil date (Howard Hinnant's
`days_from_civil` algorithm, the standard proleptic-Gregorian count used by
Python's `datetime.toordinal`/`timestamp`). -/
def daysFromCivil (year month day : Nat) : Int :=
  let y : Int := if month ≤ 2 then (year : Int) - 1 else (year : Int)
  let era : Int := Int.fdiv y 400
  let yoe : Nat := (y - era * 400).toNat
  let mp : Nat := if 2 < month then month - 3 else month + 9
  let doy : Nat := (153 * mp + 2) / 5 + day - 1
  let doe : Nat := yoe * 365 + yoe / 4 - yoe / 100 + doy
  era * 146097 + (doe : Int) - 719468

/-- `datetime.timestamp()` of a (UTC) datetime, in integral epoch seconds. -/
def Datetime.timestamp (d : Datetime) : Int :=
  daysFromCivil d.year d.month d.day * 86400
    + (d.hour * 3600 + d.minute * 60 + d.second : Nat)

/-- `datetime.date()`: the calendar date triple. -/
def Datetime.date (d : Datetime) : Nat × Nat × Nat := (d.year, d.month, d.day)

/-- `d.replace(hour=23, minute=59, second=59)` as used for the inclusive
end-of-day bound in `_get_filtered_transactions`. -/
def Datetime.endOfDay (d : Datetime) : Datetime :=
  { d with hour := 23, minute := 59, second := 59 }

/-- ISO weekday of a civil date, Monday = 1 .. Sunday = 7
(1970-01-01 was a Thursday). -/
def isoWeekday (year month day : Nat) : Nat :=
  ((daysFromCivil year month day + 3).emod 7).toNat + 1

/-- Ordinal day of the year (Jan 1 ↦ 1). -/
def dayOfYear (year month day : Nat) : Nat :=
  (daysFromCivil year month day - daysFromCivil year 1 1 + 1).toNat

/-- Number of ISO weeks (52 or 53) in ISO year `y`. -/
def isoWeeksInYear (y : Nat) : Nat :=
  let p : Nat → Nat := fun n => (n + n / 4 - n / 100 + n / 400) % 7
  if p y = 4 ∨ p (y - 1) = 3 then 53 else 52

/-- `datetime.isocalendar()`: the ISO-8601 (week-year, week number, weekday)
triple.  The ISO week-year may differ from the calendar year at year
boundaries. -/
def Datetime.isocalendar (d : Datetime) : Nat × Nat × Nat :=
  let wd := isoWeekday d.year d.month d.day
  let woy : Int := Int.fdiv ((dayOfYear d.year d.month d.day : Int) - wd + 10) 7
  if woy < 1 then
    (d.year - 1, isoWeeksInYear (d.year - 1), wd)
  else if woy > (isoWeeksInYear d.year : Int) then
    (d.year + 1, 1, wd)
  else
    (d.year, woy.toNat, wd)

/-- Zero-pad a numeral to two digits (`%02d`). -/
def pad2 (n : Nat) : String :=
  if n < 10 then "0" ++ toString n else toString n

/-- Zero-pad a year to four digits (`%Y`). -/
def pad4 (n : Nat) : String :=
  if n < 10 then "000" ++ toString n
  else if n < 100 then "00" ++ toString n
  else if n < 1000 then "0" ++ toString n
  else toString n

/-- `date.strftime('%Y-%m-%d')`. -/
def Datetime.fmtDaily (d : Datetime) : String :=
  pad4 d.year ++ "-" ++ pad2 d.month ++ "-" ++ pad2 d.day

/-- `date.strftime('%Y-%m')`. -/
def Datetime.fmtMonthly (d : Datetime) : String :=
  pad4 d.year ++ "-" ++ pad2 d.month

/-- `date.strftime('%Y')`. -/
def Datetime.fmtYearly (d : Datetime) : String :=
  pad4 d.year

/-- `datetime.isoformat()` at second precision:
`YYYY-MM-DDTHH:MM:SS`. -/
def Datetime.isoformat (d : Datetime) : String :=
  d.fmtDaily ++ "T" ++ pad2 d.hour ++ ":" ++ pad2 d.minute ++ ":" ++ pad2 d.second

/-- The weekly branch of `_get_period_key` (service.py lines 310-312):
`year, week, _ = date.isocalendar(); f"{year}-W{week:02d}"`. -/
def Datetime.isoWeekKey (d : Datetime) : String :=
  let c := d.isocalendar
  toString c.1 ++ "-W" ++ pad2 c.2.1

/-! ### Data model (`backend/core/model/transaction.py`, `analytics.py`) -/

/-- `TransactionType` (transaction.py lines 11-13). -/
inductive TransactionType
  | income
  | expense
deriving DecidableEq, Repr

/-- `Currency` (transaction.py lines 15-24). -/
inductive Currency
  | USD | JPY | KRW | CNY | EUR | GBP | CAD | HKD | TWD
deriving DecidableEq, Repr

/-- `CategoryId` (transaction.py lines 26-42). -/
inductive CategoryId
  | shopping | food_dining | transportation | entertainment | living
  | education | health | investment | travel | income | other
deriving DecidableEq, Repr

/-- `CategoryId.value`: the string value of each enum member. -/
def CategoryId.value : CategoryId → String
  | .shopping => "shopping"
  | .food_dining => "food_dining"
  | .transportation => "transportation"
  | .entertainment => "entertainment"
  | .living => "living"
  | .education => "education"
  | .health => "health"
  | .investment => "investment"
  | .travel => "travel"
  | .income => "income"
  | .other => "other"

/-- `SubCategoryId` (transaction.py lines 44-105). -/
inductive SubCategoryId
  | breakfast | lunch | dinner | snack | drink | food_dining_other
  | clothing | electronics | home_goods | shopping_other
  | ticket | bus | train | taxi | parking | transportation_other
  | movie | concert | sports | game | entertainment_other
  | rent | mortgage | telecom | living_other
  | tuition | software | education_other
  | medical | insurance | health_other
  | stock | mutual_fund | crypto | investment_other
  | hotel | flight | travel_other
  | income_other | other
deriving DecidableEq, Repr

/-- `SubCategoryId.value`: the string value of each enum member. -/
def SubCategoryId.value : SubCategoryId → String
  | .breakfast => "breakfast"
  | .lunch => "lunch"
  | .dinner => "dinner"
  | .snack => "snack"
  | .drink => "drink"
  | .food_dining_other => "food_dining_other"
  | .clothing => "clothing"
  | .electronics => "electronics"
  | .home_goods => "home_goods"
  | .shopping_other => "shopping_other"
  | .ticket => "ticket"
  | .bus => "bus"
  | .train => "train"
  | .taxi => "taxi"
  | .parking => "parking"
  | .transportation_other => "transportation_other"
  | .movie => "movie"
  | .concert => "concert"
  | .sports => "sports"
  | .game => "game"
  | .entertainment_other => "entertainment_other"
  | .rent => "rent"
  | .mortgage => "mortgage"
  | .telecom => "telecom"
  | .living_other => "living_other"
  | .tuition => "tuition"
  | .software => "software"
  | .education_other => "education_other"
  | .medical => "medical"
  | .insurance => "insurance"
  | .health_other => "health_other"
  | .stock => "stock"
  | .mutual_fund => "mutual_fund"
  | .crypto => "crypto"
  | .investment_other => "investment_other"
  | .hotel => "hotel"
  | .flight => "flight"
  | .travel_other => "travel_other"
  | .income_other => "income_other"
  | .other => "other"

/-- `Transaction` (transaction.py lines 210-225).  `amount: float` is
embedded as `ℚ`; `transaction_date: datetime` as `Datetime`; `created_at`
and `updated_at` are integral epoch seconds as in the source. -/
structure Transaction where
  id : String
  user_id : String
  user_name : String
  type : TransactionType
  currency : Currency
  amount : ℚ
  transaction_date : Datetime
  category_id : CategoryId
  subcategory_id : SubCategoryId
  description : Option String
  notes : Option String
  tags : Option (List String)
  created_at : Int
  updated_at : Int
  is_deleted : Bool
deriving DecidableEq, Repr

/-- `AnalyticsPeriod` (analytics.py lines 7-10).  Its only members are
`weekly`, `monthly` and `yearly` — the source defines no `daily` member. -/
inductive AnalyticsPeriod
  | weekly
  | monthly
  | yearly
deriving DecidableEq, Repr

/-- Pydantic/FastAPI parsing of an `AnalyticsPeriod` query value: lookup of
a string among the enum member values (analytics.py lines 7-10). -/
def AnalyticsPeriod.fromValue : String → Option AnalyticsPeriod
  | "weekly" => some .weekly
  | "monthly" => some .monthly
  | "yearly" => some .yearly
  | _ => none

/-- Python attribute access `AnalyticsPeriod.<name>` on the enum class:
returns the member, or raises `AttributeError` when the class has no such
member. -/
def AnalyticsPeriod.attr (name : String) : Except String AnalyticsPeriod :=
  match AnalyticsPeriod.fromValue name with
  | some p => Except.ok p
  | none => Except.error ("AttributeError: " ++ name)

/-- `AnalyticsQuery` (analytics.py lines 12-17). -/
structure AnalyticsQuery where
  start_date : Option Datetime
  end_date : Option Datetime
  period : AnalyticsPeriod
  transaction_type : Option TransactionType
  category_id : Option CategoryId
deriving DecidableEq, Repr

/-- One row of `CategoryAnalytics.subcategories` (the dict built at
service.py lines 202-207). -/
structure SubcategoryRow where
  subcategory_id : String
  total_amount : ℚ
  transaction_count : Nat
  percentage : ℚ
deriving DecidableEq, Repr

/-- `CategoryAnalytics` (analytics.py lines 19-25). -/
structure CategoryAnalytics where
  category_id : String
  category_name : String
  total_amount : ℚ
  transaction_count : Nat
  percentage : ℚ
  subcategories : List SubcategoryRow
deriving DecidableEq, Repr

/-- `PeriodAnalytics` (analytics.py lines 27-32). -/
structure PeriodAnalytics where
  period : String
  income : ℚ
  expense : ℚ
  net : ℚ
  transaction_count : Nat
deriving DecidableEq, Repr

/-- `SpendingTrend` (analytics.py lines 34-37). -/
structure SpendingTrend where
  date : String
  amount : ℚ
  transaction_count : Nat
deriving DecidableEq, Repr

/-- `TagAnalytics` (analytics.py lines 39-43). -/
structure TagAnalytics where
  tag : String
  total_amount : ℚ
  transaction_count : Nat
  avg_amount : ℚ
deriving DecidableEq, Repr

/-- The `largest_expense` snapshot dict (service.py lines 145-151); the
empty dict `{}` is embedded as `none` at the `FinancialSummary` field. -/
structure LargestExpense where
  id : String
  amount : ℚ
  description : Option String
  category_id : String
  transaction_date : String
deriving DecidableEq, Repr

/-- The `most_frequent_category` dict (service.py lines 161-164); the empty
dict `{}` is embedded as `none` at the `FinancialSummary` field. -/
structure MostFrequentCategory where
  category_id : String
  count : Nat
deriving DecidableEq, Repr

/-- `FinancialSummary` (analytics.py lines 45-51). -/
structure FinancialSummary where
  total_income : ℚ
  total_expense : ℚ
  net_income : ℚ
  avg_daily_expense : ℚ
  largest_expense : Option LargestExpense
  most_frequent_category : Option MostFrequentCategory
deriving DecidableEq, Repr

/-- `AnalyticsOverview` (analytics.py lines 53-58). -/
structure AnalyticsOverview where
  summary : FinancialSummary
  category_breakdown : List CategoryAnalytics
  spending_trends : List SpendingTrend
  top_tags : List TagAnalytics
  period_comparison : List PeriodAnalytics
deriving DecidableEq, Repr

/-- `round(x, 2)`: rounding to two decimal places (the spec fixes the
2-decimal precision and leaves the tie rule to the float semantics; here
ties round half-up). -/
def round2 (x : ℚ) : ℚ := (round (x * 100) : ℚ) / 100

/-! ### Insertion-ordered dictionaries

Python `dict`/`defaultdict` grouping is embedded as an association list:
an update rewrites the value of the first matching key in place, and a new
key is appended at the end — exactly the insertion-order semantics of
`dict`. -/

/-! ### Insertion-ordered dictionaries

Python `dict`/`defaultdict` grouping is embedded as an association list:
an update rewrites the value of the first matching key in place, and a new
key is appended at the end — exactly the insertion-order semantics of
`dict`. -/

section AssocDict

variable {K V : Type} [DecidableEq K]


/-- `d[k] = f(d.get(k, init))` on an insertion-ordered dict: update the
entry of `k` in place, or append `(k, f init)` when `k` is absent (the
`defaultdict` pattern `d[k] += …`). -/
def assocUpd (l : List (K × V)) (k : K) (f : V → V) (init : V) : List (K × V) :=
  match l with
  | [] => [(k, f init)]
  | (k', v) :: rest =>
      if k' = k then (k', f v) :: rest else (k', v) :: assocUpd rest k f init

/-- `d.get(k, dflt)`: value of the first entry with key `k`. -/
def getV (l : List (K × V)) (k : K) (dflt : V) : V :=
  match l with
  | [] => dflt
  | (k', v) :: rest => if k' = k then v else getV rest k dflt

/-- Sum of a projection of the values of a dict. -/
def sumVal {M : Type} [AddCommMonoid M] (g : V → M) (l : List (K × V)) : M :=
  (l.map (fun p => g p.2)).sum

/-- First-encounter ordering of a list of keys (insertion order of a
Python `dict` whose keys are drawn from the list left to right). -/
def firstOcc (l : List K) : List K :=
  l.foldl (fun acc k => if k ∈ acc then acc else acc ++ [k]) []

end AssocDict

/-! ### Stable sorting (`list.sort(key=…, reverse=True)`)

CPython's `list.sort` is stable; with `reverse=True` it yields a
non-increasing order in which elements with equal keys keep their original
relative order.  This is embedded as a stable insertion sort: a new element
is placed after every element whose key is `≥` its own. -/

section SortDesc

variable {α : Type} (f : α → ℚ)


/-- Insert `x` into a non-increasing list, after all entries with key
`≥ f x` (stability for ties). -/
def insertDesc (x : α) : List α → List α
  | [] => [x]
  | y :: ys => if f x ≤ f y then y :: insertDesc x ys else x :: y :: ys

/-- `l.sort(key=f, reverse=True)`. -/
def sortByDesc (l : List α) : List α :=
  l.foldl (fun acc x => insertDesc f x acc) []

/-- Non-increasing by key. -/
def SortedDesc (l : List α) : Prop := List.Pairwise (fun a b => f b ≤ f a) l

end SortDesc

/-- Stable ascending insertion by string key: `sorted(d.items())` on a
dict with unique keys compares the key component first. -/
def insertAscStr {V : Type} (x : String × V) :
    List (String × V) → List (String × V)
  | [] => [x]
  | y :: ys => if x.1 < y.1 then x :: y :: ys else y :: insertAscStr x ys

/-- `sorted(period_data.items())`. -/
def sortAscByKey {V : Type} (l : List (String × V)) : List (String × V) :=
  l.foldl (fun acc x => insertAscStr x acc) []

/-! ### Python `max(iterable, key=f)` -/

section PyMax

variable {α β : Type} [LinearOrder β]

/-- `max(l, key=f)`: linear scan keeping the running best, replacing it
only on a strictly greater key — so ties are won by the first-encountered
element.  Returns `none` on an empty list (where Python raises
`ValueError`; the call sites guard non-emptiness). -/
def pyMaxBy (f : α → β) : List α → Option α
  | [] => none
  | x :: xs => some (xs.foldl (fun best y => if f best < f y then y else best) x)

end PyMax

/-! ### The aggregator (`backend/analytics/service.py`) -/

/-- `AnalyticsService._get_period_key` (service.py lines 304-318).  Python
evaluates the right-hand side of each comparison before comparing, so the
first branch accesses `AnalyticsPeriod.daily` — which is not a member of
the enum (analytics.py lines 7-10) and raises `AttributeError`. -/
def getPeriodKey (date : Datetime) (period : AnalyticsPeriod) : Except String String := do
  let daily ← AnalyticsPeriod.attr "daily"
  if period = daily then
    Except.ok date.fmtDaily
  else
    let weekly ← AnalyticsPeriod.attr "weekly"
    if period = weekly then
      Except.ok date.isoWeekKey
    else
      let monthly ← AnalyticsPeriod.attr "monthly"
      if period = monthly then
        Except.ok date.fmtMonthly
      else
        let yearly ← AnalyticsPeriod.attr "yearly"
        if period = yearly then
          Except.ok date.fmtYearly
        else
          Except.ok date.fmtDaily

/-- The `category_counts` accumulator of `_calculate_financial_summary`
(service.py lines 154-156): transaction count per category id, keys in
first-encounter order. -/
def categoryCounts (transactions : List Transaction) : List (String × Nat) :=
  transactions.foldl
    (fun acc t => assocUpd acc t.category_id.value (fun n => n + 1) 0) []

/-- `_calculate_financial_summary` (service.py lines 115-173). -/
def calculateFinancialSummary (transactions : List Transaction) : FinancialSummary :=
  if transactions.isEmpty then
    { total_income := 0
      total_expense := 0
      net_income := 0
      avg_daily_expense := 0
      largest_expense := none
      most_frequent_category := none }
  else
    let total_income : ℚ :=
      ((transactions.filter (fun t => t.type = TransactionType.income)).map
        (fun t => t.amount)).sum
    let total_expense : ℚ :=
      ((transactions.filter (fun t => t.type = TransactionType.expense)).map
        (fun t => t.amount)).sum
    let net_income := total_income - total_expense
    let expense_transactions :=
      transactions.filter (fun t => t.type = TransactionType.expense)
    let avg_daily_expense : ℚ :=
      if ¬expense_transactions.isEmpty then
        let dates := (expense_transactions.map (fun t => t.transaction_date.date)).dedup
        if ¬dates.isEmpty then total_expense / (dates.length : ℚ) else 0
      else 0
    let largest_expense : Option LargestExpense :=
      (pyMaxBy (fun t => t.amount) expense_transactions).map (fun largest =>
        { id := largest.id
          amount := largest.amount
          description := largest.description
          category_id := largest.category_id.value
          transaction_date := largest.transaction_date.isoformat })
    let most_frequent_category : Option MostFrequentCategory :=
      (pyMaxBy (fun p => p.2) (categoryCounts transactions)).map (fun p =>
        { category_id := p.1, count := p.2 })
    { total_income := total_income
      total_expense := total_expense
      net_income := net_income
      avg_daily_expense := round2 avg_daily_expense
      largest_expense := largest_expense
      most_frequent_category := most_frequent_category }

/-- The `category_data` accumulator of `_calculate_category_breakdown`
(service.py lines 180-189): per category id, the category's transactions
in encounter order paired with its per-subcategory grouping. -/
def categoryData (transactions : List Transaction) :
    List (String × (List Transaction × List (String × List Transaction))) :=
  transactions.foldl
    (fun acc t => assocUpd acc t.category_id.value
      (fun d =>
        (d.1 ++ [t], assocUpd d.2 t.subcategory_id.value (fun s => s ++ [t]) []))
      ([], []))
    []

/-- The inner per-subcategory grouping of `_calculate_category_breakdown`,
as a function of a category's transaction list. -/
def subcategoryFold (l : List Transaction) : List (String × List Transaction) :=
  l.foldl (fun a t => assocUpd a t.subcategory_id.value (fun s => s ++ [t]) []) []

/-- `category_id.replace('_', ' ')`. -/
def replaceUnderscores (s : String) : String :=
  String.mk (s.data.map (fun c => if c = '_' then ' ' else c))

/-- Python `str.title()`: uppercase each alphabetic character that follows
a non-alphabetic one, lowercase the other alphabetic characters. -/
def pyTitle (s : String) : String :=
  String.mk ((s.data.foldl
    (fun (st : Bool × List Char) c =>
      let out := if c.isAlpha then (if st.1 then c.toLower else c.toUpper) else c
      (c.isAlpha, st.2 ++ [out]))
    (false, [])).2)

/-- `_calculate_category_breakdown` (service.py lines 175-223). -/
def calculateCategoryBreakdown (transactions : List Transaction) :
    List CategoryAnalytics :=
  let total_amount : ℚ := (transactions.map (fun t => t.amount)).sum
  let result := (categoryData transactions).map (fun p =>
    let category_total : ℚ := (p.2.1.map (fun t => t.amount)).sum
    let percentage : ℚ :=
      if total_amount > 0 then category_total / total_amount * 100 else 0
    let subcategories := (p.2.2.map (fun q =>
      let subcat_total : ℚ := (q.2.map (fun t => t.amount)).sum
      let subcat_percentage : ℚ :=
        if category_total > 0 then subcat_total / category_total * 100 else 0
      { subcategory_id := q.1
        total_amount := subcat_total
        transaction_count := q.2.length
        percentage := round2 subcat_percentage : SubcategoryRow }))
    { category_id := p.1
      category_name := pyTitle (replaceUnderscores p.1)
      total_amount := category_total
      transaction_count := p.2.1.length
      percentage := round2 percentage
      subcategories := sortByDesc (fun r => r.total_amount) subcategories
      : CategoryAnalytics })
  sortByDesc (fun c => c.total_amount) result

/-- One transaction's contribution to the `tag_data` accumulator of
`_calculate_tag_analytics` (service.py lines 256-261): for each occurrence
of a tag in the transaction's tag list (`if t.tags` makes a missing or
empty list contribute nothing), add the amount to the tag's total, bump
its count and append to its amount list. -/
def tagStep (acc : List (String × (ℚ × Nat × List ℚ))) (t : Transaction) :
    List (String × (ℚ × Nat × List ℚ)) :=
  (t.tags.getD []).foldl
    (fun a tag =>
      assocUpd a tag
        (fun v => (v.1 + t.amount, v.2.1 + 1, v.2.2 ++ [t.amount]))
        (0, 0, []))
    acc

/-- The `tag_data` accumulator of `_calculate_tag_analytics` (service.py
lines 254-261): per tag, running total, count and amount list, fed once
per occurrence of the tag in a transaction's tag list. -/
def tagData (transactions : List Transaction) :
    List (String × (ℚ × Nat × List ℚ)) :=
  transactions.foldl tagStep []

/-- The pre-sort `result` list of `_calculate_tag_analytics` (service.py
lines 263-271): one entry per tag, in first-encounter order. -/
def tagEntries (transactions : List Transaction) : List TagAnalytics :=
  (tagData transactions).map (fun p =>
    let avg_amount : ℚ := if p.2.2.1 > 0 then p.2.1 / (p.2.2.1 : ℚ) else 0
    { tag := p.1
      total_amount := p.2.1
      transaction_count := p.2.2.1
      avg_amount := round2 avg_amount : TagAnalytics })

/-- `_calculate_tag_analytics` (service.py lines 250-275). -/
def calculateTagAnalytics (transactions : List Transaction) : List TagAnalytics :=
  (sortByDesc (fun x => x.total_amount) (tagEntries transactions)).take 20

/-- `_calculate_spending_trends` (service.py lines 225-248). -/
def calculateSpendingTrends (transactions : List Transaction)
    (query : AnalyticsQuery) : Except String (List SpendingTrend) :=
  if transactions.isEmpty then
    Except.ok []
  else do
    let period_data ← transactions.foldlM
      (fun acc t => do
        let key ← getPeriodKey t.transaction_date query.period
        pure (assocUpd acc key (fun v => (v.1 + t.amount, v.2 + 1)) ((0 : ℚ), (0 : Nat))))
      []
    pure ((sortAscByKey period_data).map (fun p =>
      { date := p.1, amount := p.2.1, transaction_count := p.2.2 }))

/-- `_calculate_period_comparison` (service.py lines 277-302). -/
def calculatePeriodComparison (transactions : List Transaction)
    (query : AnalyticsQuery) : Except String (List PeriodAnalytics) := do
  let period_data ← transactions.foldlM
    (fun acc t => do
      let key ← getPeriodKey t.transaction_date query.period
      pure (assocUpd acc key
        (fun v =>
          if t.type = TransactionType.income then (v.1 + t.amount, v.2.1, v.2.2 + 1)
          else (v.1, v.2.1 + t.amount, v.2.2 + 1))
        ((0 : ℚ), (0 : ℚ), (0 : Nat))))
    []
  pure ((sortAscByKey period_data).map (fun p =>
    { period := p.1
      income := p.2.1
      expense := p.2.2.1
      net := p.2.1 - p.2.2.1
      transaction_count := p.2.2.2 }))

/-- `_empty_analytics_overview` (service.py lines 320-337). -/
def emptyAnalyticsOverview : AnalyticsOverview :=
  { summary :=
      { total_income := 0
        total_expense := 0
        net_income := 0
        avg_daily_expense := 0
        largest_expense := none
        most_frequent_category := none }
    category_breakdown := []
    spending_trends := []
    top_tags := []
    period_comparison := [] }

/-- `get_analytics_overview` (service.py lines 18-44), applied to the
already-fetched transaction slice: the `try`/`except` wrapper turns any
exception into `HTTPException(500, "Analytics calculation error: …")`,
embedded here as the corresponding `Except.error`. -/
def getAnalyticsOverview (transactions : List Transaction)
    (query : AnalyticsQuery) : Except String AnalyticsOverview :=
  let body : Except String AnalyticsOverview :=
    if transactions.isEmpty then
      Except.ok emptyAnalyticsOverview
    else do
      let summary := calculateFinancialSummary transactions
      let category_breakdown := calculateCategoryBreakdown transactions
      let spending_trends ← calculateSpendingTrends transactions query
      let top_tags := calculateTagAnalytics transactions
      let period_comparison ← calculatePeriodComparison transactions query
      pure { summary := summary
             category_breakdown := category_breakdown
             spending_trends := spending_trends
             top_tags := top_tags
             period_comparison := period_comparison }
  match body with
  | Except.ok v => Except.ok v
  | Except.error e => Except.error ("Analytics calculation error: " ++ e)

/-- The per-document match predicate of `_get_filtered_transactions`
(service.py lines 74-113): owner, soft-delete flag, `created_at` range
(start bound `int(start_date.timestamp())`, end bound
`int(end_date.replace(hour=23, minute=59, second=59).timestamp())`,
both inclusive), optional type and category filters. -/
def matchesFilter (current_user_id : String) (query : AnalyticsQuery)
    (t : Transaction) : Bool :=
  decide (t.user_id = current_user_id) && decide (t.is_deleted = false)
  && (if query.start_date.isSome || query.end_date.isSome then
        (match query.start_date with
          | none => true
          | some s => decide (s.timestamp ≤ t.created_at))
        && (match query.end_date with
          | none => true
          | some e => decide (t.created_at ≤ e.endOfDay.timestamp))
      else true)
  && (match query.transaction_type with
      | none => true
      | some ty => decide (t.type = ty))
  && (match query.category_id with
      | none => true
      | some c => decide (t.category_id = c))

/-- `_get_filtered_transactions` (service.py lines 74-113) over the user's
stored documents. -/
def getFilteredTransactions (current_user_id : String) (query : AnalyticsQuery)
    (documents : List Transaction) : List Transaction :=
  documents.filter (matchesFilter current_user_id query)

/-! ### Concrete sample inputs (for failing-input and witness theorems) -/

/-- A concrete transaction (used as failing input and witness material). -/
def sampleTransaction (i : String) (ty : TransactionType) (amt : ℚ)
    (c : CategoryId) (sc : SubCategoryId) (d : Datetime)
    (tags : Option (List String)) : Transaction :=
  { id := i
    user_id := "u1"
    user_name := "User One"
    type := ty
    currency := .TWD
    amount := amt
    transaction_date := d
    category_id := c
    subcategory_id := sc
    description := none
    notes := none
    tags := tags
    created_at := 1717243200
    updated_at := 1717243200
    is_deleted := false }

/-- The spec §8 concrete scenario: expenses 100, 200, 300 in `food_dining`
(subcategories lunch, lunch, dinner) plus an income of 1000. -/
def sampleSlice : List Transaction :=
  [ sampleTransaction "e1" .expense 100 .food_dining .lunch ⟨2024, 6, 1, 12, 0, 0⟩ none
  , sampleTransaction "e2" .expense 200 .food_dining .lunch ⟨2024, 6, 1, 13, 0, 0⟩ none
  , sampleTransaction "e3" .expense 300 .food_dining .dinner ⟨2024, 6, 2, 12, 0, 0⟩ none
  , sampleTransaction "i1" .income 1000 .income .income_other ⟨2024, 6, 2, 13, 0, 0⟩ none ]

/-- The spec §8 tag scenario: tags `["a","b"]` with amount 10 and `["a"]`
with amount 20. -/
def sampleTagSlice : List Transaction :=
  [ sampleTransaction "t1" .expense 10 .shopping .clothing ⟨2024, 6, 1, 12, 0, 0⟩ (some ["a", "b"])
  , sampleTransaction "t2" .expense 20 .shopping .clothing ⟨2024, 6, 1, 13, 0, 0⟩ (some ["a"]) ]

/-- A query with the default (`monthly`) period and no filters. -/
def sampleQuery : AnalyticsQuery :=
  { start_date := none
    end_date := none
    period := .monthly
    transaction_type := none
    category_id := none }

/-- The C9 query: `end_date = 2024-01-31`, no other filters. -/
def endDateQuery : AnalyticsQuery :=
  { start_date := none
    end_date := some ⟨2024, 1, 31, 0, 0, 0⟩
    period := .monthly
    transaction_type := none
    category_id := none }

/-- A transaction attributed to `end_date` at 23:59:59 but created five
days later (`created_at` = 2024-02-05 12:00:00 UTC). -/
def lateCreatedTx : Transaction :=
  { sampleTransaction "late" .expense 50 .shopping .clothing
      ⟨2024, 1, 31, 23, 59, 59⟩ none with
    created_at := Datetime.timestamp ⟨2024, 2, 5, 12, 0, 0⟩ }

/-- A transaction whose `created_at` is exactly the end-of-day instant of
the query's `end_date` (2024-01-31 23:59:59 UTC). -/
def boundaryCreatedTx : Transaction :=
  { sampleTransaction "boundary" .expense 50 .shopping .clothing
      ⟨2024, 1, 31, 23, 59, 59⟩ none with
    created_at := Datetime.timestamp ⟨2024, 1, 31, 23, 59, 59⟩ }

/-! ### Properties of the insertion-ordered dictionaries -/

section AssocDict

variable {K V : Type} [DecidableEq K]


theorem getV_assocUpd (l : List (K × V)) (k : K) (f : V → V) (init : V) (k' : K) :
    getV (assocUpd l k f init) k' init
      = if k' = k then f (getV l k init) else getV l k' init := by
  induction l with
  | nil =>
      by_cases h : k' = k
      · subst h; simp [assocUpd, getV]
      · have h' : ¬k = k' := fun he => h he.symm
        simp [assocUpd, getV, h, h']
  | cons p rest ih =>
      obtain ⟨k₀, v₀⟩ := p
      by_cases h₀ : k₀ = k
      · subst h₀
        by_cases h' : k' = k₀
        · subst h'; simp [assocUpd, getV]
        · have h'' : ¬k₀ = k' := fun he => h' he.symm
          simp [assocUpd, getV, h', h'']
      · by_cases h' : k₀ = k'
        · subst h'
          simp [assocUpd, getV, h₀]
        · have h'' : ¬k' = k₀ := fun he => h' he.symm
          simp [assocUpd, getV, h₀, h', h'', ih]

theorem keys_assocUpd (l : List (K × V)) (k : K) (f : V → V) (init : V) :
    (assocUpd l k f init).map Prod.fst
      = if k ∈ l.map Prod.fst then l.map Prod.fst
        else l.map Prod.fst ++ [k] := by
  induction l with
  | nil => simp [assocUpd]
  | cons p rest ih =>
      obtain ⟨k₀, v₀⟩ := p
      by_cases h₀ : k₀ = k
      · subst h₀
        simp [assocUpd]
      · have h₀' : ¬k = k₀ := fun he => h₀ he.symm
        by_cases hmem : k ∈ rest.map Prod.fst
        · simp [assocUpd, h₀, h₀', ih, hmem]
        · simp [assocUpd, h₀, h₀', ih, hmem]

/-- An entry-wise invariant is preserved by `assocUpd`. -/
theorem mem_assocUpd_prop (P : K × V → Prop)
    (l : List (K × V)) (k : K) (f : V → V) (init : V)
    (hupd : ∀ v, P (k, v) → P (k, f v))
    (hnew : P (k, f init)) :
    (∀ p ∈ l, P p) → ∀ p ∈ assocUpd l k f init, P p := by
  induction l with
  | nil =>
      intro _ p hp
      have h : p = (k, f init) := by simpa [assocUpd] using hp
      exact h ▸ hnew
  | cons q rest ih =>
      intro hl p hp
      obtain ⟨k₀, v₀⟩ := q
      by_cases h₀ : k₀ = k
      · subst h₀
        rcases (by simpa [assocUpd] using hp : p = (k₀, f v₀) ∨ p ∈ rest) with h | h
        · exact h ▸ hupd v₀ (hl _ (by simp))
        · exact hl _ (by simp [h])
      · rcases (by simpa [assocUpd, h₀] using hp :
            p = (k₀, v₀) ∨ p ∈ assocUpd rest k f init) with h | h
        · exact h ▸ hl _ (by simp)
        · exact ih (fun r hr => hl r (by simp [hr])) p h

theorem sumVal_assocUpd {M : Type} [AddCommMonoid M] (g : V → M)
    (l : List (K × V)) (k : K) (f : V → V) (init : V) (d : M)
    (hf : ∀ v, g (f v) = g v + d) (hi : g init = 0) :
    sumVal g (assocUpd l k f init) = sumVal g l + d := by
  induction l with
  | nil => simp [assocUpd, sumVal, hf, hi]
  | cons p rest ih =>
      obtain ⟨k₀, v₀⟩ := p
      by_cases h₀ : k₀ = k
      · subst h₀
        simp [assocUpd, sumVal, hf, add_assoc, add_comm d]
      · simp only [assocUpd, h₀, if_false, sumVal, List.map_cons, List.sum_cons]
        rw [show ((assocUpd rest k f init).map fun p => g p.2).sum
              = sumVal g (assocUpd rest k f init) from rfl, ih]
        simp [sumVal, add_assoc]

/-- With duplicate-free keys, a dict entry carries the looked-up value. -/
theorem getV_of_mem_nodup (l : List (K × V)) (dflt : V)
    (hnd : (l.map Prod.fst).Nodup) :
    ∀ p ∈ l, getV l p.1 dflt = p.2 := by
  induction l with
  | nil => simp
  | cons q rest ih =>
      obtain ⟨k₀, v₀⟩ := q
      simp only [List.map_cons, List.nodup_cons] at hnd
      intro p hp
      rcases (by simpa using hp : p = (k₀, v₀) ∨ p ∈ rest) with h | h
      · subst h; simp [getV]
      · have hk : k₀ ≠ p.1 := by
          intro he
          exact hnd.1 (he ▸ List.mem_map_of_mem Prod.fst h)
        simp only [getV, hk, if_false]
        exact ih hnd.2 p h

end AssocDict

theorem assocUpd_ne_nil {K V : Type} [DecidableEq K]
    (l : List (K × V)) (k : K) (f : V → V) (init : V) :
    assocUpd l k f init ≠ [] := by
  cases l with
  | nil => simp [assocUpd]
  | cons p rest =>
      obtain ⟨k₀, v₀⟩ := p
      by_cases h : k₀ = k <;> simp [assocUpd, h]

section FoldUpd

variable {α K V : Type} [DecidableEq K]


/-- Value accumulated for one key by a grouping pass
(`for x in l: d[key(x)] = fx(x)(d[key(x)])`): the fold of the update over
exactly the elements with that key, in encounter order. -/
theorem getV_foldl_assocUpd (key : α → K) (fx : α → V → V) (init : V) :
    ∀ (l : List α) (acc : List (K × V)) (k : K),
      getV (l.foldl (fun a x => assocUpd a (key x) (fx x) init) acc) k init
        = (l.filter (fun x => key x = k)).foldl (fun v x => fx x v) (getV acc k init)
  | [], _, _ => rfl
  | x :: xs, acc, k => by
      simp only [List.foldl_cons]
      rw [getV_foldl_assocUpd key fx init xs _ k, getV_assocUpd]
      by_cases h : key x = k
      · simp [List.filter_cons, h]
      · have h' : ¬(k = key x) := fun he => h he.symm
        simp [List.filter_cons, h, h']

theorem keys_foldl_assocUpd (key : α → K) (fx : α → V → V) (init : V) :
    ∀ (l : List α) (acc : List (K × V)),
      (l.foldl (fun a x => assocUpd a (key x) (fx x) init) acc).map Prod.fst
        = l.foldl (fun ks x => if key x ∈ ks then ks else ks ++ [key x])
            (acc.map Prod.fst)
  | [], _ => rfl
  | x :: xs, acc => by
      simp only [List.foldl_cons]
      rw [keys_foldl_assocUpd key fx init xs _, keys_assocUpd]

theorem keys_foldl_assocUpd_nil (key : α → K) (fx : α → V → V) (init : V)
    (l : List α) :
    (l.foldl (fun a x => assocUpd a (key x) (fx x) init) []).map Prod.fst
      = firstOcc (l.map key) := by
  rw [keys_foldl_assocUpd, firstOcc, List.foldl_map]
  rfl

theorem nodup_firstOcc_fold :
    ∀ (l : List K) (acc : List K), acc.Nodup →
      (l.foldl (fun ks k => if k ∈ ks then ks else ks ++ [k]) acc).Nodup
  | [], _, h => h
  | k :: ks, acc, h => by
      simp only [List.foldl_cons]
      by_cases hmem : k ∈ acc
      · simpa [hmem] using nodup_firstOcc_fold ks acc h
      · refine nodup_firstOcc_fold ks _ ?_
        simp [hmem, List.nodup_append, h]

theorem nodup_keys_foldl_assocUpd (key : α → K) (fx : α → V → V) (init : V)
    (l : List α) :
    ((l.foldl (fun a x => assocUpd a (key x) (fx x) init) []).map Prod.fst).Nodup := by
  rw [keys_foldl_assocUpd_nil]
  simpa [firstOcc] using nodup_firstOcc_fold (l.map key) [] (by simp)

end FoldUpd

theorem foldl_assocUpd_ne_nil {α K V : Type} [DecidableEq K]
    (key : α → K) (fx : α → V → V) (init : V) :
    ∀ (l : List α) (acc : List (K × V)), acc ≠ [] →
      l.foldl (fun a x => assocUpd a (key x) (fx x) init) acc ≠ []
  | [], _, h => h
  | x :: xs, acc, _ => by
      simp only [List.foldl_cons]
      exact foldl_assocUpd_ne_nil key fx init xs _ (assocUpd_ne_nil _ _ _ _)

/-- Entry-wise invariants survive a single-`assocUpd`-shaped fold. -/
theorem mem_foldl_assocUpd_prop {α K V : Type} [DecidableEq K]
    (key : α → K) (fx : α → V → V) (init : V) (P : K × V → Prop)
    (hupd : ∀ x k v, P (k, v) → P (k, fx x v))
    (hnew : ∀ x, P (key x, fx x init)) :
    ∀ (l : List α) (acc : List (K × V)),
      (∀ p ∈ acc, P p) →
      ∀ p ∈ l.foldl (fun a x => assocUpd a (key x) (fx x) init) acc, P p
  | [], _, h => h
  | x :: xs, acc, h => by
      simp only [List.foldl_cons]
      refine mem_foldl_assocUpd_prop key fx init P hupd hnew xs _ ?_
      exact mem_assocUpd_prop P acc (key x) (fx x) init
        (fun v => hupd x (key x) v) (hnew x) h

theorem foldl_add_one {α : Type} :
    ∀ (l : List α) (b : ℕ), l.foldl (fun n _ => n + 1) b = b + l.length
  | [], _ => rfl
  | _ :: l, b => by
      simp only [List.foldl_cons, List.length_cons]
      rw [foldl_add_one l (b + 1)]
      omega

/-! ### Properties of the stable sort -/

section SortDesc

variable {α : Type} (f : α → ℚ)


theorem insertDesc_perm (x : α) :
    ∀ l : List α, List.Perm (insertDesc f x l) (x :: l)
  | [] => by simp [insertDesc]
  | y :: ys => by
      by_cases h : f x ≤ f y
      · simpa [insertDesc, h] using
          ((insertDesc_perm x ys).cons y).trans (List.Perm.swap x y ys)
      · simp [insertDesc, h]

theorem sortByDesc_fold_perm :
    ∀ (l acc : List α),
      List.Perm (l.foldl (fun acc x => insertDesc f x acc) acc) (acc ++ l)
  | [], acc => by simp
  | x :: xs, acc => by
      simp only [List.foldl_cons]
      exact (sortByDesc_fold_perm xs _).trans
        (((insertDesc_perm f x acc).append_right xs).trans List.perm_middle.symm)

theorem sortByDesc_perm (l : List α) : List.Perm (sortByDesc f l) l := by
  simpa using sortByDesc_fold_perm f l []

theorem mem_sortByDesc {l : List α} {c : α} : c ∈ sortByDesc f l ↔ c ∈ l :=
  (sortByDesc_perm f l).mem_iff

theorem insertDesc_sorted (x : α) :
    ∀ {l : List α}, SortedDesc f l → SortedDesc f (insertDesc f x l)
  | [], _ => by simp [SortedDesc, insertDesc]
  | y :: ys, h => by
      rcases List.pairwise_cons.mp h with ⟨hy, hys⟩
      by_cases hxy : f x ≤ f y
      · have hmem : ∀ z ∈ insertDesc f x ys, f z ≤ f y := by
          intro z hz
          rcases List.mem_cons.mp ((insertDesc_perm f x ys).mem_iff.mp hz) with hz' | hz'
          · exact hz' ▸ hxy
          · exact hy z hz'
        have htail : SortedDesc f (insertDesc f x ys) := insertDesc_sorted x hys
        simpa [insertDesc, hxy, SortedDesc] using List.Pairwise.cons hmem htail
      · have hyx : f y < f x := not_le.mp hxy
        have hall : ∀ z ∈ y :: ys, f z ≤ f x := by
          intro z hz
          rcases List.mem_cons.mp hz with hz' | hz'
          · exact hz' ▸ le_of_lt hyx
          · exact (hy z hz').trans (le_of_lt hyx)
        simpa [insertDesc, hxy, SortedDesc] using List.Pairwise.cons hall h

theorem sortByDesc_fold_sorted :
    ∀ (l acc : List α), SortedDesc f acc →
      SortedDesc f (l.foldl (fun acc x => insertDesc f x acc) acc)
  | [], _, h => h
  | x :: xs, acc, h => by
      simp only [List.foldl_cons]
      exact sortByDesc_fold_sorted xs _ (insertDesc_sorted f x h)

theorem sortByDesc_sorted (l : List α) : SortedDesc f (sortByDesc f l) :=
  sortByDesc_fold_sorted f l [] (by simp [SortedDesc])

theorem filter_insertDesc (x : α) (v : ℚ) :
    ∀ {l : List α}, SortedDesc f l →
      (insertDesc f x l).filter (fun a => f a = v)
        = l.filter (fun a => f a = v) ++ if f x = v then [x] else []
  | [], _ => by
      by_cases h : f x = v <;> simp [insertDesc, h]
  | y :: ys, h => by
      rcases List.pairwise_cons.mp h with ⟨hy, hys⟩
      by_cases hxy : f x ≤ f y
      · have ih := filter_insertDesc x v hys
        simp only [insertDesc, if_pos hxy]
        by_cases hyv : f y = v <;> simp [List.filter_cons, hyv, ih]
      · have hyx : f y < f x := not_le.mp hxy
        simp only [insertDesc, if_neg hxy]
        by_cases hxv : f x = v
        · have hnil : (y :: ys).filter (fun a => f a = v) = [] := by
            rw [List.filter_eq_nil_iff]
            intro a ha
            have hle : f a ≤ f y := by
              rcases List.mem_cons.mp ha with ha' | ha'
              · exact ha' ▸ le_rfl
              · exact hy a ha'
            have : f a < v := hxv ▸ lt_of_le_of_lt hle hyx
            simp [ne_of_lt this]
          simp [List.filter_cons, hxv, hnil]
        · simp [List.filter_cons, hxv]

theorem sortByDesc_fold_filter (v : ℚ) :
    ∀ (l acc : List α), SortedDesc f acc →
      (l.foldl (fun acc x => insertDesc f x acc) acc).filter (fun a => f a = v)
        = acc.filter (fun a => f a = v) ++ l.filter (fun a => f a = v)
  | [], _, _ => by simp
  | x :: xs, acc, h => by
      simp only [List.foldl_cons]
      rw [sortByDesc_fold_filter v xs _ (insertDesc_sorted f x h),
        filter_insertDesc f x v h]
      by_cases hxv : f x = v <;> simp [List.filter_cons, hxv]

/-- Stability of the sort: for each key value, the entries carrying that
key appear in the sorted output exactly in their original order. -/
theorem sortByDesc_filter (l : List α) (v : ℚ) :
    (sortByDesc f l).filter (fun a => f a = v) = l.filter (fun a => f a = v) := by
  simpa using sortByDesc_fold_filter f v l [] (by simp [SortedDesc])

end SortDesc

/-! ### Properties of `max(iterable, key=f)` -/

section PyMax

variable {α β : Type} [LinearOrder β]


theorem pyMaxBy_fold_spec (f : α → β) :
    ∀ (l : List α) (b : α),
      (l.foldl (fun best y => if f best < f y then y else best) b = b
          ∧ ∀ u ∈ l, f u ≤ f b)
      ∨ (∃ m pre post,
          l.foldl (fun best y => if f best < f y then y else best) b = m
          ∧ l = pre ++ m :: post ∧ f b < f m
          ∧ (∀ u ∈ pre, f u < f m) ∧ (∀ u ∈ post, f u ≤ f m))
  | [], b => Or.inl ⟨rfl, by simp⟩
  | y :: ys, b => by
      simp only [List.foldl_cons]
      by_cases h : f b < f y
      · rw [if_pos h]
        rcases pyMaxBy_fold_spec f ys y with ⟨he, hall⟩ | ⟨m, pre, post, he, hleq, hlt, hpre, hpost⟩
        · exact Or.inr ⟨y, [], ys, he, by simp, h, by simp, hall⟩
        · refine Or.inr ⟨m, y :: pre, post, he, by simp [hleq], h.trans hlt, ?_, hpost⟩
          intro u hu
          rcases List.mem_cons.mp hu with hu' | hu'
          · exact hu' ▸ hlt
          · exact hpre u hu'
      · rw [if_neg h]
        rcases pyMaxBy_fold_spec f ys b with ⟨he, hall⟩ | ⟨m, pre, post, he, hleq, hlt, hpre, hpost⟩
        · refine Or.inl ⟨he, ?_⟩
          intro u hu
          rcases List.mem_cons.mp hu with hu' | hu'
          · exact hu' ▸ not_lt.mp h
          · exact hall u hu'
        · refine Or.inr ⟨m, y :: pre, post, he, by simp [hleq], hlt, ?_, hpost⟩
          intro u hu
          rcases List.mem_cons.mp hu with hu' | hu'
          · exact hu' ▸ lt_of_le_of_lt (not_lt.mp h) hlt
          · exact hpre u hu'

/-- `max(l, key=f)` on a non-empty list returns the first element carrying
the maximal key: every element strictly before it has a strictly smaller
key, and every element of the list has a key `≤` its own. -/
theorem pyMaxBy_spec (f : α → β) (l : List α) (hne : l ≠ []) :
    ∃ m pre post, pyMaxBy f l = some m ∧ l = pre ++ m :: post
      ∧ (∀ u ∈ pre, f u < f m) ∧ (∀ u ∈ l, f u ≤ f m) := by
  match l, hne with
  | x :: xs, _ =>
      rcases pyMaxBy_fold_spec f xs x with ⟨he, hall⟩ | ⟨m, pre, post, he, hleq, hlt, hpre, hpost⟩
      · refine ⟨x, [], xs, by simp [pyMaxBy, he], rfl, by simp, ?_⟩
        intro u hu
        rcases List.mem_cons.mp hu with hu' | hu'
        · exact hu' ▸ le_rfl
        · exact hall u hu'
      · refine ⟨m, x :: pre, post, by simp [pyMaxBy, he], by simp [hleq], ?_, ?_⟩
        · intro u hu
          rcases List.mem_cons.mp hu with hu' | hu'
          · exact hu' ▸ hlt
          · exact hpre u hu'
        · intro u hu
          rcases List.mem_cons.mp hu with hu' | hu'
          · exact hu' ▸ le_of_lt hlt
          · rw [hleq] at hu'
            rcases List.mem_append.mp hu' with hu'' | hu''
            · exact le_of_lt (hpre u hu'')
            · rcases List.mem_cons.mp hu'' with hu''' | hu'''
              · exact hu''' ▸ le_rfl
              · exact hpost u hu'''

theorem pyMaxBy_eq_none_iff (f : α → β) (l : List α) :
    pyMaxBy f l = none ↔ l = [] := by
  cases l <;> simp [pyMaxBy]

end PyMax

/-! ### Properties of the aggregator -/

theorem round2_zero : round2 0 = 0 := by
  simp [round2]

/-- Each transaction's kind is exactly one of income/expense, so the two
filtered amount sums split the total amount sum. -/
theorem sum_amount_split (transactions : List Transaction) :
    ((transactions.filter (fun t => t.type = TransactionType.income)).map
        (fun t => t.amount)).sum
      + ((transactions.filter (fun t => t.type = TransactionType.expense)).map
        (fun t => t.amount)).sum
      = (transactions.map (fun t => t.amount)).sum := by
  induction transactions with
  | nil => simp
  | cons t ts ih =>
      cases h : t.type <;>
        · simp only [List.filter_cons, List.map_cons, List.sum_cons, h]
          simp only [← ih]
          ring_nf
          simp [add_assoc, add_comm, add_left_comm]

theorem subcategoryFold_append (l : List Transaction) (t : Transaction) :
    subcategoryFold (l ++ [t])
      = assocUpd (subcategoryFold l) t.subcategory_id.value (fun s => s ++ [t]) [] := by
  simp [subcategoryFold, List.foldl_append]

/-- In `category_data`, each category's subcategory grouping is exactly the
inner fold of that category's own transaction list. -/
theorem categoryData_fold_inv :
    ∀ (ts : List Transaction) (acc :
        List (String × (List Transaction × List (String × List Transaction)))),
      (∀ p ∈ acc, p.2.2 = subcategoryFold p.2.1) →
      ∀ p ∈ ts.foldl
        (fun acc t => assocUpd acc t.category_id.value
          (fun d =>
            (d.1 ++ [t], assocUpd d.2 t.subcategory_id.value (fun s => s ++ [t]) []))
          ([], []))
        acc,
        p.2.2 = subcategoryFold p.2.1
  | [], _, h => h
  | t :: ts, acc, h => by
      simp only [List.foldl_cons]
      refine categoryData_fold_inv ts _ ?_
      refine mem_assocUpd_prop _ _ _ _ _ ?_ ?_ h
      · intro v hv
        simp only at hv ⊢
        rw [subcategoryFold_append, hv]
      · simp only
        rw [List.nil_append]
        rfl

theorem categoryData_snd (transactions : List Transaction) :
    ∀ p ∈ categoryData transactions, p.2.2 = subcategoryFold p.2.1 :=
  categoryData_fold_inv transactions [] (by simp)

/-- Additive projections of the buckets of the subcategory fold sum to the
projection of the whole list. -/
theorem sumVal_subFold_step {M : Type} [AddCommMonoid M]
    (g : List Transaction → M) (m : Transaction → M)
    (hg : ∀ s t, g (s ++ [t]) = g s + m t) (h0 : g [] = 0) :
    ∀ (l : List Transaction) (acc : List (String × List Transaction)),
      sumVal g (l.foldl
        (fun a t => assocUpd a t.subcategory_id.value (fun s => s ++ [t]) []) acc)
        = sumVal g acc + (l.map m).sum
  | [], acc => by simp
  | t :: l, acc => by
      simp only [List.foldl_cons, List.map_cons, List.sum_cons]
      rw [sumVal_subFold_step g m hg h0 l _,
        sumVal_assocUpd g _ _ _ _ (m t) (fun v => hg v t) h0, add_assoc]

theorem sumVal_subcategoryFold {M : Type} [AddCommMonoid M]
    (g : List Transaction → M) (m : Transaction → M)
    (hg : ∀ s t, g (s ++ [t]) = g s + m t) (h0 : g [] = 0)
    (l : List Transaction) :
    sumVal g (subcategoryFold l) = (l.map m).sum := by
  simpa [sumVal] using sumVal_subFold_step g m hg h0 l []

theorem sum_map_one (l : List Transaction) :
    (l.map (fun _ => (1 : ℕ))).sum = l.length := by
  induction l with
  | nil => rfl
  | cons t l ih => simp [ih, Nat.add_comm]

theorem categoryCounts_ne_nil (transactions : List Transaction)
    (hne : transactions ≠ []) : categoryCounts transactions ≠ [] := by
  cases transactions with
  | nil => exact absurd rfl hne
  | cons t ts =>
      show (t :: ts).foldl
        (fun acc t => assocUpd acc t.category_id.value (fun n => n + 1) 0) [] ≠ []
      simp only [List.foldl_cons]
      exact foldl_assocUpd_ne_nil (fun t : Transaction => t.category_id.value)
        (fun _ n => n + 1) 0 ts _ (assocUpd_ne_nil _ _ _ _)

/-- Components of the constant per-occurrence tag update iterated over a
list: the total grows by `amount × occurrences` and the count by
`occurrences`. -/
theorem getV_tagFold_inner (a : ℚ) :
    ∀ (tags : List String) (acc : List (String × (ℚ × Nat × List ℚ))) (k : String),
      ((getV (tags.foldl (fun ac tag =>
            assocUpd ac tag (fun v => (v.1 + a, v.2.1 + 1, v.2.2 ++ [a])) (0, 0, []))
          acc) k (0, 0, [])).1
        = (getV acc k (0, 0, [])).1
          + a * (((tags.filter (fun x => x = k)).length : ℚ)))
      ∧ ((getV (tags.foldl (fun ac tag =>
            assocUpd ac tag (fun v => (v.1 + a, v.2.1 + 1, v.2.2 ++ [a])) (0, 0, []))
          acc) k (0, 0, [])).2.1
        = (getV acc k (0, 0, [])).2.1 + (tags.filter (fun x => x = k)).length)
  | [], _, _ => by simp
  | tag :: tags, acc, k => by
      simp only [List.foldl_cons]
      obtain ⟨h1, h2⟩ := getV_tagFold_inner a tags
        (assocUpd acc tag (fun v => (v.1 + a, v.2.1 + 1, v.2.2 ++ [a])) (0, 0, [])) k
      have hup := getV_assocUpd acc tag
        (fun v => (v.1 + a, v.2.1 + 1, v.2.2 ++ [a])) (0, 0, []) k
      rw [hup] at h1 h2
      by_cases hk : tag = k
      · subst hk
        rw [if_pos rfl] at h1 h2
        rw [show ((getV acc tag (0, 0, [])).1 + a, (getV acc tag (0, 0, [])).2.1 + 1,
            (getV acc tag (0, 0, [])).2.2 ++ [a]).1
            = (getV acc tag (0, 0, [])).1 + a from rfl] at h1
        rw [show ((getV acc tag (0, 0, [])).1 + a, (getV acc tag (0, 0, [])).2.1 + 1,
            (getV acc tag (0, 0, [])).2.2 ++ [a]).2.1
            = (getV acc tag (0, 0, [])).2.1 + 1 from rfl] at h2
        have hflt : (tag :: tags).filter (fun x => x = tag)
            = tag :: tags.filter (fun x => x = tag) := by
          simp [List.filter_cons]
        constructor
        · rw [h1, hflt, List.length_cons]
          push_cast
          ring
        · rw [h2, hflt, List.length_cons]
          omega
      · have hk2 : ¬(k = tag) := fun he => hk he.symm
        rw [if_neg hk2] at h1 h2
        have hflt : (tag :: tags).filter (fun x => x = k)
            = tags.filter (fun x => x = k) := by
          simp [List.filter_cons, hk]
        constructor
        · rw [h1, hflt]
        · rw [h2, hflt]

theorem getV_tagStep (t : Transaction)
    (acc : List (String × (ℚ × Nat × List ℚ))) (k : String) :
    ((getV (tagStep acc t) k (0, 0, [])).1
      = (getV acc k (0, 0, [])).1
        + t.amount * ((((t.tags.getD []).filter (fun x => x = k)).length : ℚ)))
    ∧ ((getV (tagStep acc t) k (0, 0, [])).2.1
      = (getV acc k (0, 0, [])).2.1
        + ((t.tags.getD []).filter (fun x => x = k)).length) :=
  getV_tagFold_inner t.amount (t.tags.getD []) acc k

/-- Per-tag totals and counts of the full `tag_data` pass: each
transaction contributes its amount once per occurrence of the tag in its
tag list. -/
theorem tagData_fold_getV :
    ∀ (transactions : List Transaction)
      (acc : List (String × (ℚ × Nat × List ℚ))) (k : String),
      ((getV (transactions.foldl tagStep acc) k (0, 0, [])).1
        = (getV acc k (0, 0, [])).1
          + (transactions.map (fun t =>
              t.amount * ((((t.tags.getD []).filter (fun x => x = k)).length : ℚ)))).sum)
      ∧ ((getV (transactions.foldl tagStep acc) k (0, 0, [])).2.1
        = (getV acc k (0, 0, [])).2.1
          + (transactions.map (fun t =>
              ((t.tags.getD []).filter (fun x => x = k)).length)).sum)
  | [], _, _ => by simp
  | t :: ts, acc, k => by
      simp only [List.foldl_cons, List.map_cons, List.sum_cons]
      obtain ⟨h1, h2⟩ := tagData_fold_getV ts (tagStep acc t) k
      obtain ⟨g1, g2⟩ := getV_tagStep t acc k
      constructor
      · rw [h1, g1]
        ring
      · rw [h2, g2]
        omega

theorem tagData_getV (transactions : List Transaction) (k : String) :
    ((getV (tagData transactions) k (0, 0, [])).1
      = (transactions.map (fun t =>
          t.amount * ((((t.tags.getD []).filter (fun x => x = k)).length : ℚ)))).sum)
    ∧ ((getV (tagData transactions) k (0, 0, [])).2.1
      = (transactions.map (fun t =>
          ((t.tags.getD []).filter (fun x => x = k)).length)).sum) := by
  obtain ⟨h1, h2⟩ := tagData_fold_getV transactions [] k
  simp only [getV] at h1 h2
  exact ⟨by simpa [tagData] using h1, by simpa [tagData] using h2⟩

theorem keys_tagStep (t : Transaction)
    (acc : List (String × (ℚ × Nat × List ℚ))) :
    (tagStep acc t).map Prod.fst
      = (t.tags.getD []).foldl
          (fun ks k => if k ∈ ks then ks else ks ++ [k]) (acc.map Prod.fst) :=
  keys_foldl_assocUpd (fun tag : String => tag)
    (fun _ v => (v.1 + t.amount, v.2.1 + 1, v.2.2 ++ [t.amount])) (0, 0, [])
    (t.tags.getD []) acc

theorem tagData_fold_keys :
    ∀ (transactions : List Transaction)
      (acc : List (String × (ℚ × Nat × List ℚ))),
      (transactions.foldl tagStep acc).map Prod.fst
        = (transactions.flatMap (fun t => t.tags.getD [])).foldl
            (fun ks k => if k ∈ ks then ks else ks ++ [k]) (acc.map Prod.fst)
  | [], _ => rfl
  | t :: ts, acc => by
      simp only [List.foldl_cons, List.flatMap_cons, List.foldl_append]
      rw [tagData_fold_keys ts (tagStep acc t), keys_tagStep]

/-- The tags of `tag_data` are exactly the distinct tags of the flattened
tag stream, in first-encounter order. -/
theorem tagData_keys_firstOcc (transactions : List Transaction) :
    (tagData transactions).map Prod.fst
      = firstOcc (transactions.flatMap (fun t => t.tags.getD [])) := by
  simpa [tagData, firstOcc] using tagData_fold_keys transactions []

theorem tagData_keys_nodup (transactions : List Transaction) :
    ((tagData transactions).map Prod.fst).Nodup := by
  rw [tagData_keys_firstOcc]
  exact nodup_firstOcc_fold _ [] (by simp)

theorem tagStep_mem_pos (t : Transaction)
    (acc : List (String × (ℚ × Nat × List ℚ)))
    (h : ∀ p ∈ acc, 0 < p.2.2.1) :
    ∀ p ∈ tagStep acc t, 0 < p.2.2.1 :=
  mem_foldl_assocUpd_prop (fun tag : String => tag)
    (fun _ v => (v.1 + t.amount, v.2.1 + 1, v.2.2 ++ [t.amount])) (0, 0, [])
    (fun p => 0 < p.2.2.1)
    (fun _ _ _ _ => Nat.succ_pos _)
    (fun _ => Nat.succ_pos _)
    (t.tags.getD []) acc h

/-- Every `tag_data` entry has a positive occurrence count. -/
theorem tagData_fold_pos :
    ∀ (transactions : List Transaction)
      (acc : List (String × (ℚ × Nat × List ℚ))),
      (∀ p ∈ acc, 0 < p.2.2.1) →
      ∀ p ∈ transactions.foldl tagStep acc, 0 < p.2.2.1
  | [], _, h => h
  | t :: ts, acc, h => by
      simp only [List.foldl_cons]
      exact tagData_fold_pos ts _ (tagStep_mem_pos t acc h)

/-! ### Claim theorems -/

/-- C1: the claim says no aggregation operation raises for any slice and
query accepted by the type system.  On any non-empty slice the
spending-trend and period-comparison computations call `_get_period_key`,
which raises `AttributeError: daily` (the enum has no `daily` member), and
`get_analytics_overview` surfaces it as HTTP 500
("Analytics calculation error: …") — here at the concrete failing input of
one transaction with the default monthly period. -/
theorem c1_overview_raises_on_nonempty_slice :
    (∀ (transactions : List Transaction) (query : AnalyticsQuery),
        transactions ≠ [] →
        getAnalyticsOverview transactions query
          = Except.error "Analytics calculation error: AttributeError: daily")
      ∧ getAnalyticsOverview sampleSlice sampleQuery
        = Except.error "Analytics calculation error: AttributeError: daily"
      ∧ calculateSpendingTrends sampleSlice sampleQuery
        = Except.error "AttributeError: daily"
      ∧ calculatePeriodComparison sampleSlice sampleQuery
        = Except.error "AttributeError: daily" := by
  refine ⟨?_, rfl, rfl, rfl⟩
  intro transactions query h
  cases transactions with
  | nil => exact absurd rfl h
  | cons t ts => rfl

/-- C2: the claim says the period-bucketing function supports a `daily`
granularity (`YYYY-MM-DD`) and falls back to daily formatting for
unrecognized values.  In the code, `AnalyticsPeriod` (analytics.py lines
7-10) has no member `daily`: the string "daily" is not a value of the
enum (so the query layer rejects it), and `_get_period_key` evaluates
`AnalyticsPeriod.daily` in its first comparison, raising
`AttributeError: daily` on every invocation — no branch, daily or
fallback, is ever reached. -/
theorem c2_get_period_key_always_raises :
    AnalyticsPeriod.fromValue "daily" = none
      ∧ ∀ (d : Datetime) (p : AnalyticsPeriod),
          getPeriodKey d p = Except.error "AttributeError: daily" :=
  ⟨rfl, fun _ _ => rfl⟩

/-- C3: the claim says weekly bucketing returns the ISO week-year key, in
particular "2022-W52" for Jan 1, 2023.  The weekly branch of
`_get_period_key` (service.py lines 310-312) does compute exactly that via
`isocalendar()` — but the function raises `AttributeError: daily` (missing
enum member, evaluated in the first comparison) before the weekly branch
can execute, so weekly bucketing never returns any key. -/
theorem c3_weekly_iso_week_year :
    getPeriodKey ⟨2023, 1, 1, 0, 0, 0⟩ AnalyticsPeriod.weekly
        = Except.error "AttributeError: daily"
      ∧ Datetime.isoWeekKey ⟨2023, 1, 1, 0, 0, 0⟩ = "2022-W52"
      ∧ Datetime.isocalendar ⟨2023, 1, 1, 0, 0, 0⟩ = (2022, 52, 7) := by
  refine ⟨rfl, by decide, by decide⟩

/-- C4: for every non-empty slice, `total_income` is the sum of income
amounts, `total_expense` the sum of expense amounts, `net_income` is
exactly their difference, and the two unsigned sums add up to the sum of
all amounts in the slice. -/
theorem c4_summary_totals (transactions : List Transaction)
    (hne : transactions ≠ []) :
    (calculateFinancialSummary transactions).total_income
        = ((transactions.filter (fun t => t.type = TransactionType.income)).map
            (fun t => t.amount)).sum
      ∧ (calculateFinancialSummary transactions).total_expense
        = ((transactions.filter (fun t => t.type = TransactionType.expense)).map
            (fun t => t.amount)).sum
      ∧ (calculateFinancialSummary transactions).net_income
        = (calculateFinancialSummary transactions).total_income
          - (calculateFinancialSummary transactions).total_expense
      ∧ (calculateFinancialSummary transactions).total_income
          + (calculateFinancialSummary transactions).total_expense
        = (transactions.map (fun t => t.amount)).sum := by
  have hne' : transactions.isEmpty = false := List.isEmpty_eq_false.mpr hne
  refine ⟨?_, ?_, ?_, ?_⟩ <;>
    simp [calculateFinancialSummary, hne', sum_amount_split]

/-- C4 witness at the spec §8 slice. -/
theorem c4_summary_totals_witness :
    (calculateFinancialSummary sampleSlice).total_income
        = ((sampleSlice.filter (fun t => t.type = TransactionType.income)).map
            (fun t => t.amount)).sum
      ∧ (calculateFinancialSummary sampleSlice).total_expense
        = ((sampleSlice.filter (fun t => t.type = TransactionType.expense)).map
            (fun t => t.amount)).sum
      ∧ (calculateFinancialSummary sampleSlice).net_income
        = (calculateFinancialSummary sampleSlice).total_income
          - (calculateFinancialSummary sampleSlice).total_expense
      ∧ (calculateFinancialSummary sampleSlice).total_income
          + (calculateFinancialSummary sampleSlice).total_expense
        = (sampleSlice.map (fun t => t.amount)).sum :=
  c4_summary_totals sampleSlice (List.cons_ne_nil _ _)

/-- C5: every category entry's percentage is its total over the grand
total (all amounts, both kinds) times 100 rounded to two decimals, `0`
when the grand total is not positive; every subcategory row's percentage
is its total over the category total times 100 rounded to two decimals,
`0` when the category total is not positive. -/
theorem c5_breakdown_percentages (transactions : List Transaction) :
    (calculateCategoryBreakdown transactions).Forall (fun c =>
      (c.percentage
          = if (transactions.map (fun t => t.amount)).sum > 0
            then round2 (c.total_amount
              / (transactions.map (fun t => t.amount)).sum * 100)
            else 0)
      ∧ c.subcategories.Forall (fun s =>
          s.percentage
            = if c.total_amount > 0
              then round2 (s.total_amount / c.total_amount * 100)
              else 0)) := by
  rw [List.forall_iff_forall_mem]
  intro c hc
  simp only [calculateCategoryBreakdown, mem_sortByDesc, List.mem_map] at hc
  obtain ⟨p, hp, rfl⟩ := hc
  constructor
  · by_cases hg : (transactions.map (fun t => t.amount)).sum > 0
    · simp [hg]
    · simp [hg, round2_zero]
  · rw [List.forall_iff_forall_mem]
    intro s hs
    simp only [mem_sortByDesc, List.mem_map] at hs
    obtain ⟨q, hq, rfl⟩ := hs
    by_cases hc : (p.2.1.map (fun t => t.amount)).sum > 0
    · simp [hc]
    · simp [hc, round2_zero]

/-- C6: `avg_daily_expense` is the expense total divided by the number of
distinct calendar dates carrying at least one expense, rounded to two
decimals, and `0` when the slice has no expense transactions. -/
theorem c6_avg_daily_expense (transactions : List Transaction) :
    ((transactions.filter (fun t => t.type = TransactionType.expense)) ≠ [] →
      (calculateFinancialSummary transactions).avg_daily_expense
        = round2 (((transactions.filter (fun t => t.type = TransactionType.expense)).map
              (fun t => t.amount)).sum
            / (((transactions.filter (fun t => t.type = TransactionType.expense)).map
              (fun t => t.transaction_date.date)).toFinset.card : ℚ)))
  ∧ ((transactions.filter (fun t => t.type = TransactionType.expense)) = [] →
      (calculateFinancialSummary transactions).avg_daily_expense = 0) := by
  constructor
  · intro hE
    have hne : transactions ≠ [] := by
      intro h
      rw [h] at hE
      simp at hE
    have hne' : transactions.isEmpty = false := List.isEmpty_eq_false.mpr hne
    have hEe : (transactions.filter
        (fun t => t.type = TransactionType.expense)).isEmpty = false :=
      List.isEmpty_eq_false.mpr hE
    have hd : ((transactions.filter (fun t => t.type = TransactionType.expense)).map
        (fun t => t.transaction_date.date)).dedup ≠ [] := by
      simp [List.dedup_eq_nil, hE]
    have hde : (((transactions.filter (fun t => t.type = TransactionType.expense)).map
        (fun t => t.transaction_date.date)).dedup).isEmpty = false :=
      List.isEmpty_eq_false.mpr hd
    rw [List.card_toFinset]
    simp [calculateFinancialSummary, hne', hEe, hde]
  · intro hE
    by_cases h : transactions = []
    · rw [h]
      simp [calculateFinancialSummary]
    · have hne' : transactions.isEmpty = false := List.isEmpty_eq_false.mpr h
      simp [calculateFinancialSummary, hne', hE, round2_zero]

/-- C6 witness at the spec §8 slice (three expenses on two distinct
calendar dates). -/
theorem c6_avg_daily_expense_witness :
    (calculateFinancialSummary sampleSlice).avg_daily_expense
      = round2 (((sampleSlice.filter (fun t => t.type = TransactionType.expense)).map
            (fun t => t.amount)).sum
          / (((sampleSlice.filter (fun t => t.type = TransactionType.expense)).map
            (fun t => t.transaction_date.date)).toFinset.card : ℚ)) :=
  (c6_avg_daily_expense sampleSlice).1 (by decide)

/-- C7: `largest_expense` is absent exactly when the slice has no expense,
and otherwise snapshots the first-encountered expense of maximal amount;
`most_frequent_category` is absent exactly when the slice is empty, and
otherwise carries the first-encountered category id of maximal count in
grouping (first-encounter) order together with that category's exact
transaction count over all transactions. -/
theorem c7_single_winner_selections (transactions : List Transaction) :
    ((transactions.filter (fun t => t.type = TransactionType.expense)) = [] →
      (calculateFinancialSummary transactions).largest_expense = none)
  ∧ ((transactions.filter (fun t => t.type = TransactionType.expense)) ≠ [] →
      ∃ m pre post,
        transactions.filter (fun t => t.type = TransactionType.expense)
            = pre ++ m :: post
        ∧ (calculateFinancialSummary transactions).largest_expense
            = some { id := m.id
                     amount := m.amount
                     description := m.description
                     category_id := m.category_id.value
                     transaction_date := m.transaction_date.isoformat }
        ∧ (∀ u ∈ pre, u.amount < m.amount)
        ∧ (∀ u ∈ transactions.filter (fun t => t.type = TransactionType.expense),
            u.amount ≤ m.amount))
  ∧ (transactions = [] →
      (calculateFinancialSummary transactions).most_frequent_category = none)
  ∧ (transactions ≠ [] →
      ∃ c n pre post,
        categoryCounts transactions = pre ++ (c, n) :: post
        ∧ (calculateFinancialSummary transactions).most_frequent_category
            = some { category_id := c, count := n }
        ∧ n = (transactions.filter (fun t => t.category_id.value = c)).length
        ∧ (∀ q ∈ pre, q.2 < n)
        ∧ (∀ q ∈ categoryCounts transactions, q.2 ≤ n)
        ∧ (categoryCounts transactions).map Prod.fst
            = firstOcc (transactions.map (fun t => t.category_id.value))) := by
  refine ⟨?_, ?_, ?_, ?_⟩
  · intro hE
    by_cases h : transactions = []
    · rw [h]; simp [calculateFinancialSummary]
    · have hne' : transactions.isEmpty = false := List.isEmpty_eq_false.mpr h
      simp [calculateFinancialSummary, hne', hE, pyMaxBy]
  · intro hE
    have hne : transactions ≠ [] := by
      intro h
      rw [h] at hE
      simp at hE
    have hne' : transactions.isEmpty = false := List.isEmpty_eq_false.mpr hne
    obtain ⟨m, pre, post, hmax, hleq, hpre, hall⟩ :=
      pyMaxBy_spec (fun t : Transaction => t.amount)
        (transactions.filter (fun t => t.type = TransactionType.expense)) hE
    refine ⟨m, pre, post, hleq, ?_, hpre, hall⟩
    simp [calculateFinancialSummary, hne', hmax]
  · intro h
    rw [h]
    simp [calculateFinancialSummary]
  · intro hne
    have hne' : transactions.isEmpty = false := List.isEmpty_eq_false.mpr hne
    have hcnt := categoryCounts_ne_nil transactions hne
    obtain ⟨mp, pre, post, hmax, hleq, hpre, hall⟩ :=
      pyMaxBy_spec (fun p : String × Nat => p.2) (categoryCounts transactions) hcnt
    have hmem : mp ∈ categoryCounts transactions := by
      rw [hleq]
      exact List.mem_append_right _ (List.mem_cons_self _ _)
    have hnd : ((categoryCounts transactions).map Prod.fst).Nodup := by
      have := nodup_keys_foldl_assocUpd
        (fun t : Transaction => t.category_id.value) (fun _ n => n + 1) 0 transactions
      simpa [categoryCounts] using this
    have hgetV : getV (categoryCounts transactions) mp.1 0 = mp.2 :=
      getV_of_mem_nodup _ 0 hnd mp hmem
    have hcount : getV (categoryCounts transactions) mp.1 0
        = (transactions.filter (fun t => t.category_id.value = mp.1)).length := by
      have := getV_foldl_assocUpd
        (fun t : Transaction => t.category_id.value) (fun _ n => n + 1) 0
        transactions [] mp.1
      rw [show categoryCounts transactions
            = transactions.foldl
              (fun a x => assocUpd a x.category_id.value (fun n => n + 1) 0) []
          from rfl]
      rw [this, foldl_add_one]
      simp [getV]
    refine ⟨mp.1, mp.2, pre, post, by simpa using hleq, ?_, ?_, hpre, hall, ?_⟩
    · simp [calculateFinancialSummary, hne', hmax]
    · rw [← hgetV, hcount]
    · have := keys_foldl_assocUpd_nil
        (fun t : Transaction => t.category_id.value) (fun _ n => n + 1) 0 transactions
      simpa [categoryCounts] using this

/-- C7 witness at the spec §8 slice: the maximal expense is `e3` (300) and
the most frequent category is `food_dining` with count 3. -/
theorem c7_single_winner_witness :
    (∃ m pre post,
        sampleSlice.filter (fun t => t.type = TransactionType.expense)
            = pre ++ m :: post
        ∧ (calculateFinancialSummary sampleSlice).largest_expense
            = some { id := m.id
                     amount := m.amount
                     description := m.description
                     category_id := m.category_id.value
                     transaction_date := m.transaction_date.isoformat }
        ∧ (∀ u ∈ pre, u.amount < m.amount)
        ∧ (∀ u ∈ sampleSlice.filter (fun t => t.type = TransactionType.expense),
            u.amount ≤ m.amount))
      ∧ (∃ c n pre post,
        categoryCounts sampleSlice = pre ++ (c, n) :: post
        ∧ (calculateFinancialSummary sampleSlice).most_frequent_category
            = some { category_id := c, count := n }
        ∧ n = (sampleSlice.filter (fun t => t.category_id.value = c)).length
        ∧ (∀ q ∈ pre, q.2 < n)
        ∧ (∀ q ∈ categoryCounts sampleSlice, q.2 ≤ n)
        ∧ (categoryCounts sampleSlice).map Prod.fst
            = firstOcc (sampleSlice.map (fun t => t.category_id.value))) :=
  ⟨(c7_single_winner_selections sampleSlice).2.1 (by decide),
   (c7_single_winner_selections sampleSlice).2.2.2 (List.cons_ne_nil _ _)⟩

/-- C8: the tag-analytics output has at most 20 entries, is sorted
non-increasingly by total amount, ties keep the stable first-encounter
order (the filtered tie classes of the sorted list equal those of the
pre-sort first-encounter list, and the emitted top-20 is a sublist of
them), the entry list is keyed by the distinct tags in first-encounter
order, and each emitted entry's total/count accumulate once per occurrence
of its tag (duplicates counted, tags compared exactly) with
`avg_amount = round2 (total / count)`. -/
theorem c8_tag_analytics (transactions : List Transaction) :
    (calculateTagAnalytics transactions).length ≤ 20
  ∧ List.Pairwise (fun a b => b.total_amount ≤ a.total_amount)
      (calculateTagAnalytics transactions)
  ∧ (∀ v : ℚ,
      List.Sublist
        ((calculateTagAnalytics transactions).filter (fun e => e.total_amount = v))
        ((tagEntries transactions).filter (fun e => e.total_amount = v)))
  ∧ (∀ v : ℚ,
      (sortByDesc (fun e : TagAnalytics => e.total_amount)
          (tagEntries transactions)).filter (fun e => e.total_amount = v)
        = (tagEntries transactions).filter (fun e => e.total_amount = v))
  ∧ ((tagEntries transactions).map (fun e => e.tag)
      = firstOcc (transactions.flatMap (fun t => t.tags.getD [])))
  ∧ (calculateTagAnalytics transactions).Forall (fun e =>
      e.total_amount
          = (transactions.map (fun t =>
              t.amount * ((((t.tags.getD []).filter (fun x => x = e.tag)).length : ℚ)))).sum
      ∧ e.transaction_count
          = (transactions.map (fun t =>
              ((t.tags.getD []).filter (fun x => x = e.tag)).length)).sum
      ∧ 0 < e.transaction_count
      ∧ e.avg_amount = round2 (e.total_amount / (e.transaction_count : ℚ))) := by
  refine ⟨?_, ?_, ?_, ?_, ?_, ?_⟩
  · simp [calculateTagAnalytics]
  · exact (sortByDesc_sorted (fun e : TagAnalytics => e.total_amount)
      (tagEntries transactions)).sublist (List.take_sublist _ _)
  · intro v
    have h := (List.take_sublist 20
        (sortByDesc (fun e : TagAnalytics => e.total_amount)
          (tagEntries transactions))).filter
      (fun e => decide (e.total_amount = v))
    rw [sortByDesc_filter] at h
    exact h
  · intro v
    exact sortByDesc_filter _ _ v
  · simpa [tagEntries, List.map_map, Function.comp] using
      tagData_keys_firstOcc transactions
  · rw [List.forall_iff_forall_mem]
    intro e he
    have he' : e ∈ sortByDesc (fun e : TagAnalytics => e.total_amount)
        (tagEntries transactions) := List.take_subset _ _ he
    have he'' : e ∈ tagEntries transactions := mem_sortByDesc _ |>.mp he'
    simp only [tagEntries, List.mem_map] at he''
    obtain ⟨p, hp, rfl⟩ := he''
    have hgetV : getV (tagData transactions) p.1 (0, 0, []) = p.2 :=
      getV_of_mem_nodup _ (0, 0, []) (tagData_keys_nodup transactions) p hp
    obtain ⟨h1, h2⟩ := tagData_getV transactions p.1
    rw [hgetV] at h1 h2
    have hpos : 0 < p.2.2.1 :=
      tagData_fold_pos transactions [] (by simp) p (by simpa [tagData] using hp)
    refine ⟨by simpa using h1, by simpa using h2, by simpa using hpos, ?_⟩
    simp [hpos]

/-- C9 counterexample: the claim says a transaction dated exactly on
`endDate` at 23:59:59 is included in the filtered slice.  The filter in
`_get_filtered_transactions` compares `created_at` (the record-creation
timestamp), not the attributed `transaction_date`: `lateCreatedTx` is
dated 2024-01-31 23:59:59 — exactly the end of the query's
`end_date = 2024-01-31` — yet is excluded because it was created on
2024-02-05. -/
theorem c9_counterexample_transaction_date_not_used :
    lateCreatedTx.transaction_date = (⟨2024, 1, 31, 23, 59, 59⟩ : Datetime)
      ∧ endDateQuery.end_date = some ⟨2024, 1, 31, 0, 0, 0⟩
      ∧ lateCreatedTx.user_id = "u1"
      ∧ lateCreatedTx.is_deleted = false
      ∧ getFilteredTransactions "u1" endDateQuery [lateCreatedTx] = [] :=
  ⟨rfl, rfl, rfl, rfl, rfl⟩

/-- C9 amended: the end-of-day-inclusive bound applies to the
record-creation timestamp `created_at`, not to the attributed
`transaction_date`: with an `endDate` supplied, a stored transaction that
passes the owner, soft-delete, type and category filters is included
exactly when its `created_at` is at or under the
`endDate.replace(hour=23, minute=59, second=59)` instant (and over the
start bound when one is supplied). -/
theorem c9_end_filter_inclusive_on_created_at
    (uid : String) (q : AnalyticsQuery) (docs : List Transaction)
    (t : Transaction) (e : Datetime)
    (hmem : t ∈ docs)
    (huid : t.user_id = uid)
    (hdel : t.is_deleted = false)
    (hend : q.end_date = some e)
    (hcre : t.created_at ≤ e.endOfDay.timestamp)
    (hstart : ∀ s, q.start_date = some s → s.timestamp ≤ t.created_at)
    (hty : ∀ ty, q.transaction_type = some ty → t.type = ty)
    (hcat : ∀ c, q.category_id = some c → t.category_id = c) :
    t ∈ getFilteredTransactions uid q docs := by
  refine List.mem_filter.mpr ⟨hmem, ?_⟩
  have hor : (q.start_date.isSome || q.end_date.isSome) = true := by
    simp [hend]
  cases hs : q.start_date with
  | none =>
      cases hty' : q.transaction_type with
      | none =>
          cases hcat' : q.category_id with
          | none => simp [matchesFilter, huid, hdel, hend, hs, hty', hcat', hcre]
          | some c =>
              simp [matchesFilter, huid, hdel, hend, hs, hty', hcat', hcre, hcat c hcat']
      | some ty =>
          cases hcat' : q.category_id with
          | none =>
              simp [matchesFilter, huid, hdel, hend, hs, hty', hcat', hcre, hty ty hty']
          | some c =>
              simp [matchesFilter, huid, hdel, hend, hs, hty', hcat', hcre,
                hty ty hty', hcat c hcat']
  | some s =>
      have hst := hstart s hs
      cases hty' : q.transaction_type with
      | none =>
          cases hcat' : q.category_id with
          | none => simp [matchesFilter, huid, hdel, hend, hs, hty', hcat', hcre, hst]
          | some c =>
              simp [matchesFilter, huid, hdel, hend, hs, hty', hcat', hcre, hst,
                hcat c hcat']
      | some ty =>
          cases hcat' : q.category_id with
          | none =>
              simp [matchesFilter, huid, hdel, hend, hs, hty', hcat', hcre, hst,
                hty ty hty']
          | some c =>
              simp [matchesFilter, huid, hdel, hend, hs, hty', hcat', hcre, hst,
                hty ty hty', hcat c hcat']

/-- C9 witness: a transaction whose `created_at` is exactly the end-of-day
instant of the query's `end_date` is included (the inclusive boundary, on
`created_at`). -/
theorem c9_end_filter_witness :
    boundaryCreatedTx ∈ getFilteredTransactions "u1" endDateQuery [boundaryCreatedTx] :=
  c9_end_filter_inclusive_on_created_at "u1" endDateQuery [boundaryCreatedTx]
    boundaryCreatedTx ⟨2024, 1, 31, 0, 0, 0⟩
    (List.mem_singleton.mpr rfl) rfl rfl rfl (by decide)
    (fun s hs => nomatch hs) (fun ty hty => nomatch hty) (fun c hc => nomatch hc)

/-- C10: within each category entry, the subcategory rows partition the
category's transactions: their amounts sum to the category total and
their counts sum to the category count. -/
theorem c10_subcategories_partition (transactions : List Transaction) :
    (calculateCategoryBreakdown transactions).Forall (fun c =>
      (c.subcategories.map (fun s => s.total_amount)).sum = c.total_amount
      ∧ (c.subcategories.map (fun s => s.transaction_count)).sum
          = c.transaction_count) := by
  rw [List.forall_iff_forall_mem]
  intro c hc
  simp only [calculateCategoryBreakdown, mem_sortByDesc, List.mem_map] at hc
  obtain ⟨p, hp, rfl⟩ := hc
  have hsub : p.2.2 = subcategoryFold p.2.1 := categoryData_snd transactions p hp
  constructor
  · have hperm :=
      ((sortByDesc_perm (fun r : SubcategoryRow => r.total_amount)
        (p.2.2.map (fun q =>
          ({ subcategory_id := q.1
             total_amount := (q.2.map (fun t => t.amount)).sum
             transaction_count := q.2.length
             percentage := round2 (if (p.2.1.map (fun t => t.amount)).sum > 0
               then (q.2.map (fun t => t.amount)).sum
                 / (p.2.1.map (fun t => t.amount)).sum * 100
               else 0) } : SubcategoryRow)))).map
        (fun s => s.total_amount)).sum_eq
    simp only
    rw [hperm, List.map_map]
    have := sumVal_subcategoryFold
      (fun s => (s.map (fun t => t.amount)).sum) (fun t => t.amount)
      (by intro s t; simp) (by simp) p.2.1
    rw [hsub]
    simpa [sumVal, Function.comp] using this
  · have hperm :=
      ((sortByDesc_perm (fun r : SubcategoryRow => r.total_amount)
        (p.2.2.map (fun q =>
          ({ subcategory_id := q.1
             total_amount := (q.2.map (fun t => t.amount)).sum
             transaction_count := q.2.length
             percentage := round2 (if (p.2.1.map (fun t => t.amount)).sum > 0
               then (q.2.map (fun t => t.amount)).sum
                 / (p.2.1.map (fun t => t.amount)).sum * 100
               else 0) } : SubcategoryRow)))).map
        (fun s => s.transaction_count)).sum_eq
    simp only
    rw [hperm, List.map_map]
    have := sumVal_subcategoryFold (fun s => s.length) (fun _ => (1 : ℕ))
      (by intro s t; simp) (by simp) p.2.1
    rw [hsub]
    simpa [sumVal, Function.comp, sum_map_one] using this
